import Mathlib

/-
Verification of the simai chart parsing engine (`chart_loader.py` of
mai-renderer) against its natural-language specification.

The embedding mirrors the Python source shallowly:
- Python strings are `List Char`; `float` values are `ℚ` (the values
  relevant to the claims are exactly representable dyadic rationals).
- Fallible Python code is modelled with `Except PyErr`; every place where
  the source can raise (ValueError from `int`/`float`, ZeroDivisionError
  from `/`, NameError from an unbound local) throws the matching error.
- The two `while` loops of the source that can fail to make progress are
  given explicit fuel; exhausted fuel throws `PyErr.timeout`, modelling
  non-termination.  The top-level entry point supplies `length + 1` fuel,
  which is enough for every terminating run of the source loop (each
  iteration that returns to the loop head consumes at least one character).
-/

/-- Error kinds raised by the modelled Python code. -/
inductive PyErr where
  | valueError
  | zeroDivisionError
  | nameError
  | timeout
deriving DecidableEq

def toL (s : String) : List Char := s.toList

def backtick : Char := Char.ofNat 96

def lbrace : Char := Char.ofNat 123

def rbrace : Char := Char.ofNat 125

/-- Python `str.strip` whitespace set. -/
def pyIsWS (c : Char) : Bool :=
  c = ' ' || c = '\t' || c = '\n' || c = '\r' || c = Char.ofNat 11 || c = Char.ofNat 12

/-- Python `str.strip()`: remove leading and trailing whitespace. -/
def pystrip (l : List Char) : List Char :=
  ((l.dropWhile pyIsWS).reverse.dropWhile pyIsWS).reverse

def takeUntil (stop : Char) (l : List Char) : List Char :=
  l.takeWhile (fun c => c ≠ stop)

def dropUntil (stop : Char) (l : List Char) : List Char :=
  l.dropWhile (fun c => c ≠ stop)

def digitsToNat (ds : List Char) : Nat :=
  ds.foldl (fun a c => 10 * a + (c.toNat - 48)) 0

/-- Python `float(s)` on the strings this program feeds it:
optional sign, digits with an optional fractional part, optional exponent.
Returns `none` where Python raises `ValueError`. -/
def pyFloat (l : List Char) : Option ℚ :=
  let s := pystrip l
  let (sgn, s1) : ℚ × List Char :=
    match s with
    | '+' :: r => (1, r)
    | '-' :: r => (-1, r)
    | _ => (1, s)
  let ip := s1.takeWhile Char.isDigit
  let s2 := s1.dropWhile Char.isDigit
  let (fpl, s3) : List Char × List Char :=
    match s2 with
    | '.' :: r => (r.takeWhile Char.isDigit, r.dropWhile Char.isDigit)
    | _ => ([], s2)
  if ip = [] ∧ fpl = [] then none
  else
    let mant : ℚ := (digitsToNat ip : ℚ) + (digitsToNat fpl : ℚ) / ((10 : ℚ) ^ fpl.length)
    match s3 with
    | [] => some (sgn * mant)
    | e :: r =>
      if e = 'e' ∨ e = 'E' then
        let (esgn, r1) : Int × List Char :=
          match r with
          | '+' :: r2 => (1, r2)
          | '-' :: r2 => (-1, r2)
          | _ => (1, r)
        let ed := r1.takeWhile Char.isDigit
        let r2 := r1.dropWhile Char.isDigit
        if ed = [] ∨ r2 ≠ [] then none
        else some (sgn * mant * (10 : ℚ) ^ (esgn * (digitsToNat ed : Int)))
      else none

/-- Python `int(s)`: optional sign and a nonempty digit string. -/
def pyInt (l : List Char) : Option Int :=
  let s := pystrip l
  let (sgn, s1) : Int × List Char :=
    match s with
    | '+' :: r => (1, r)
    | '-' :: r => (-1, r)
    | _ => (1, s)
  let ds := s1.takeWhile Char.isDigit
  let rest := s1.dropWhile Char.isDigit
  if ds = [] ∨ rest ≠ [] then none else some (sgn * (digitsToNat ds : Int))

/-- Python `int(c)` for a single character (note head position). -/
def pyIntChar (c : Char) : Except PyErr Nat :=
  if c.isDigit then .ok (c.toNat - 48) else .error .valueError

/-- Python `/` on floats: raises ZeroDivisionError on a zero divisor. -/
def pydiv (a b : ℚ) : Except PyErr ℚ :=
  if b = 0 then .error .zeroDivisionError else .ok (a / b)

/-- Model of `try: x except ValueError: dflt`. -/
def catchVE (x : Except PyErr ℚ) (dflt : ℚ) : Except PyErr ℚ :=
  match x with
  | .error .valueError => .ok dflt
  | y => y

def beginsWith : List Char → List Char → Bool
  | [], _ => true
  | _ :: _, [] => false
  | a :: as, b :: bs => a = b && beginsWith as bs

/-- Python `s.split(sep, 1)`: `some (before, after)` at the first
occurrence of `sep`, `none` when `sep` does not occur in `s`. -/
def pySplitOnce (sep : List Char) : List Char → Option (List Char × List Char)
  | [] => if sep = [] then some ([], []) else none
  | c :: r =>
    if beginsWith sep (c :: r) then some ([], (c :: r).drop sep.length)
    else (pySplitOnce sep r).map (fun p => (c :: p.1, p.2))

/-- Python `s.split(sep)` for a one-character separator. -/
def pySplitAll (sep : Char) : List Char → List (List Char)
  | [] => [[]]
  | c :: r =>
    let rest := pySplitAll sep r
    if c = sep then [] :: rest
    else
      match rest with
      | h :: t => (c :: h) :: t
      | [] => [[c]]

/-- Mirror of the Python dataclass `NoteData`. -/
structure NoteData where
  note_type : String
  position : Nat
  note_content : List Char := []
  hold_time : ℚ := 0
  is_break : Bool := false
  is_ex : Bool := false
  is_hanabi : Bool := false
  is_star_tap : Bool := false
  is_fake_rotate : Bool := false
  is_no_slide_head : Bool := false
  is_slide_no_head_fade : Bool := false
  is_slide_break : Bool := false
  slide_start_time : ℚ := 0
  slide_time : ℚ := 0
  slide_wait_time : ℚ := 0
  slide_end_position : Nat := 0
  touch_area : List Char := []
deriving DecidableEq

/-- Mirror of the Python dataclass `TimingPoint`. -/
structure TimingPoint where
  time : ℚ
  bpm : ℚ
  notes : List NoteData := []
  raw_text_position_y : Nat := 0
  raw_text_position_x : Nat := 0
deriving DecidableEq

def slideShapes : List Char := toL "-^v<>Vpqszw"

def extraShapes : List Char := toL "pqVvzs"

/-- `ChartLoader._parse_beat_value`: resolve `divide:count` bracket
notation to seconds at the given tempo. -/
def parse_beat_value (s : List Char) (bpm : ℚ) : Except PyErr ℚ := do
  let b := pystrip s
  let tob ← pydiv 60 bpm
  if b.contains ':' then
    match pySplitAll ':' b with
    | [p1, p2] =>
      match pyFloat p1, pyFloat p2 with
      | some divide, some count => do
        let q ← pydiv (tob * 4) divide
        pure (q * count)
      | _, _ => pure 0
    | _ => pure 0
  else pure 0

/-- `ChartLoader._parse_slide_timing`: resolve slide bracket content to a
`(duration, wait)` pair of seconds. -/
def parse_slide_timing (timing : List Char) (bpm : ℚ) : Except PyErr (ℚ × ℚ) := do
  let t := pystrip timing
  let tob ← pydiv 60 bpm
  match pySplitOnce (toL "##") t with
  | some (p0, p1) =>
    let waitStr := pystrip p0
    let durStr := pystrip p1
    let wait : ℚ := (pyFloat waitStr).getD tob
    let dur ←
      if durStr = [] then pure (0 : ℚ)
      else if durStr.contains '#' then
        match pySplitOnce (toL "#") durStr with
        | some (bs, bp) =>
          match pyFloat bs with
          | none => pure (0 : ℚ)
          | some b2 =>
            if bp.contains ':' then catchVE (parse_beat_value bp b2) 0
            else pure ((pyFloat bp).getD 0)
        | none => pure (0 : ℚ)
      else if durStr.contains ':' then parse_beat_value durStr bpm
      else pure ((pyFloat durStr).getD 0)
    pure (dur, wait)
  | none =>
    match pySplitOnce (toL "#") t with
    | some (p0, p1) =>
      let bpmStr := pystrip p0
      let durStr := pystrip p1
      match pyFloat bpmStr with
      | some b2 => do
        let wait ← pydiv 60 b2
        let dur ←
          if durStr = [] then pure (0 : ℚ)
          else if durStr.contains ':' then parse_beat_value durStr b2
          else pure ((pyFloat durStr).getD 0)
        pure (dur, wait)
      | none => do
        let dur ←
          if durStr = [] then pure (0 : ℚ)
          else if durStr.contains ':' then (throw .nameError : Except PyErr ℚ)
          else pure ((pyFloat durStr).getD 0)
        pure (dur, tob)
    | none =>
      if t.contains ':' then do
        let d ← parse_beat_value t bpm
        pure (d, tob)
      else pure ((pyFloat t).getD 0, tob)

/-- One step of bracket skipping inside `_skip_past_all_slide_tracks`:
if the list starts with `[`, drop up to and including the matching `]`. -/
def skipBracket : List Char → List Char
  | '[' :: r => (dropUntil ']' r).drop 1
  | l => l

/-- The `while ... == "*"` loop of `_skip_past_all_slide_tracks`,
with fuel bounding the iteration count. -/
def starLoop : Nat → List Char → List Char
  | 0, l => l
  | fuel + 1, l =>
    match l with
    | '*' :: r =>
      starLoop fuel
        (skipBracket
          (((r.dropWhile (fun c => slideShapes.contains c)).dropWhile
              (fun c => extraShapes.contains c)).dropWhile
            (fun c => c ≠ '[' ∧ c ≠ '*')))
    | _ => l

/-- `ChartLoader._skip_past_all_slide_tracks`, acting on the suffix `s` of
the full note text `full` that starts at the first slide shape character.
Returns the remaining suffix and the break flag, which the source computes
as `"b" in note_str` over the whole note text. -/
def skip_past_all_slide_tracks (full s : List Char) : List Char × Bool :=
  let a := s.dropWhile (fun c => slideShapes.contains c)
  let b := a.dropWhile (fun c => extraShapes.contains c)
  let c := b.dropWhile (fun ch => ch ≠ '[' ∧ ch ≠ '*')
  let d := skipBracket c
  (starLoop (d.length + 1) d, full.contains 'b')

/-- Split a list at its last decimal digit: the digit's value and the
characters after it, or `none` when no digit occurs. -/
def lastDigitSplit : List Char → Option (Nat × List Char)
  | [] => none
  | c :: r =>
    match lastDigitSplit r with
    | some p => some p
    | none => if c.isDigit then some (c.toNat - 48, r) else none

/-- The pure scanning part of `ChartLoader._parse_slide_track`: skip the
direction character and extra shape characters, find the last digit before
`[` or `*` (the destination), and step past it and an optional `@`.
Returns the destination and the remaining suffix. -/
def slideTrackScan (s : List Char) : Nat × List Char :=
  let s1 :=
    match s with
    | c :: r => if slideShapes.contains c then r else s
    | [] => s
  let s2 := s1.dropWhile (fun c => extraShapes.contains c)
  let pre := s2.takeWhile (fun ch => ch ≠ '[' ∧ ch ≠ '*')
  let post := s2.dropWhile (fun ch => ch ≠ '[' ∧ ch ≠ '*')
  let (endPos, rem0) : Nat × List Char :=
    match lastDigitSplit pre with
    | some (d, a) => (d, a ++ post)
    | none => (0, pre ++ post)
  (endPos, if rem0.head? = some '@' then rem0.tail else rem0)

/-- `ChartLoader._parse_slide_track`, acting on the suffix of the note text
that starts at the slide direction character.  Returns
`(duration, wait, end position)`. -/
def parse_slide_track (s : List Char) (bpm : ℚ) : Except PyErr (ℚ × ℚ × Nat) := do
  let sc := slideTrackScan s
  let wait ← pydiv 60 bpm
  match sc.2 with
  | '[' :: r =>
    let timing := takeUntil ']' r
    if timing = [] then pure (0, wait, sc.1)
    else
      match parse_slide_timing timing bpm with
      | .ok (d, w) => pure (d, w, sc.1)
      | .error .valueError => pure (0, wait, sc.1)
      | .error e => throw e
  | _ => pure (0, wait, sc.1)

/-- `ChartLoader._extract_end_position`: last digit before the bracket. -/
def extract_end_position (track : List Char) : Nat :=
  (takeUntil '[' track).foldl (fun acc c => if c.isDigit then c.toNat - 48 else acc) 0

/-- `ChartLoader._parse_slide_track_from_string`: resolve a chained track
string (without origin position) to `(duration?, wait?)`. -/
def parse_slide_track_from_string (track : List Char) (bpm : ℚ) :
    Except PyErr (Option ℚ × Option ℚ) := do
  if ¬ track.contains '[' then do
    let w ← pydiv 60 bpm
    pure (some 0, some w)
  else
    let bracketRest := dropUntil '[' track
    if ¬ bracketRest.contains ']' then pure (none, none)
    else
      let timing := takeUntil ']' bracketRest.tail
      match parse_slide_timing timing bpm with
      | .ok (d, w) => pure (some d, some w)
      | .error .valueError => pure (none, none)
      | .error e => throw e

/-- The modifier scanning loop of `ChartLoader._parse_note_from_string`
(`while i < len and note_str[i] != '['`).  `full` is the whole (stripped)
note text, needed by the slide branch.  Returns the updated note, the
`has_hold` and `has_slide` flags, and the unconsumed suffix. -/
def modLoop (full : List Char) (bpm : ℚ) :
    List Char → NoteData → Bool → Bool → Nat →
    Except PyErr (NoteData × Bool × Bool × List Char)
  | [], n, hh, hs, _ => pure (n, hh, hs, [])
  | c :: r, n, hh, hs, dc =>
    if c = '[' then pure (n, hh, hs, c :: r)
    else if c = 'h' then
      modLoop full bpm r
        { n with note_type := if n.note_type = "touch" then "touch_hold" else "hold" }
        true hs dc
    else if c = 'b' then
      if n.note_type = "slide" then modLoop full bpm r { n with is_slide_break := true } hh hs dc
      else modLoop full bpm r { n with is_break := true } hh hs dc
    else if c = 'x' then modLoop full bpm r { n with is_ex := true } hh hs dc
    else if c = 'f' then modLoop full bpm r { n with is_hanabi := true } hh hs dc
    else if c = '$' then
      modLoop full bpm r
        { n with is_star_tap := true, is_fake_rotate := n.is_fake_rotate || dc + 1 = 2 }
        hh hs (dc + 1)
    else if c = '@' then modLoop full bpm r n hh hs dc
    else if c = '!' ∨ c = '?' then
      modLoop full bpm r
        { n with is_no_slide_head := true,
                 is_slide_no_head_fade := n.is_slide_no_head_fade || c = '?' }
        hh hs dc
    else if slideShapes.contains c then do
      let (dur, wait, endp) ← parse_slide_track (c :: r) bpm
      let sk := skip_past_all_slide_tracks full (c :: r)
      pure ({ n with note_type := "slide", slide_time := dur, slide_wait_time := wait,
                     slide_end_position := endp,
                     is_slide_break := if sk.2 then true else n.is_slide_break },
            hh, true, sk.1)
    else modLoop full bpm r n hh hs dc

/-- The trailing-break check of `_parse_note_from_string` (the `b` right
after the bracket). -/
def noteTrailingBreak (n1 : NoteData) (rem2 : List Char) : NoteData :=
  if rem2.head? = some 'b' then
    if n1.note_type = "hold" ∨ n1.note_type = "touch_hold" then { n1 with is_break := true }
    else if n1.note_type ≠ "slide" then { n1 with is_break := true }
    else n1
  else n1

/-- The default hold duration of `_parse_note_from_string` (a hold with no
bracket gets the `[1280:1]` value). -/
def noteDefaultHold (bpm : ℚ) (hh : Bool) (n2 : NoteData) : Except PyErr NoteData :=
  if hh ∧ n2.hold_time = 0 then do
    let v ← parse_beat_value (toL "1280:1") bpm
    pure { n2 with hold_time := v }
  else pure n2

/-- Everything after the modifier loop of `_parse_note_from_string`:
hold bracket, trailing break, default hold duration. -/
def notePostProcess (bpm : ℚ) (n : NoteData) (hh hs : Bool) (rem : List Char) :
    Except PyErr (Option NoteData) := do
  let (n1, rem2) ←
    if hh ∧ ¬ hs ∧ rem.head? = some '[' then do
      let holdStr := takeUntil ']' rem.tail
      let after := (dropUntil ']' rem.tail).drop 1
      let ht ← catchVE (parse_beat_value holdStr bpm) 0
      pure (({ n with hold_time := ht }, after) : NoteData × List Char)
    else pure ((n, rem) : NoteData × List Char)
  let n3 ← noteDefaultHold bpm hh (noteTrailingBreak n1 rem2)
  pure (some n3)

/-- `ChartLoader._parse_note_from_string`. -/
def parse_note_from_string (s0 : List Char) (bpm : ℚ) : Except PyErr (Option NoteData) := do
  let s := pystrip s0
  match s with
  | [] => pure none
  | c :: rest => do
    let (note0, rest1) ←
      if (toL "ABCDE").contains c then
        pure (({ note_type := "touch",
                 position := digitsToNat (rest.takeWhile Char.isDigit),
                 note_content := s, touch_area := [c] },
               rest.dropWhile Char.isDigit) : NoteData × List Char)
      else do
        let p ← pyIntChar c
        pure (({ note_type := "tap", position := p, note_content := s },
               rest) : NoteData × List Char)
    let r ← modLoop s bpm rest1 note0 false false 0
    notePostProcess bpm r.1 r.2.1 r.2.2.1 r.2.2.2

/-- The loop over chained track parts in `ChartLoader._parse_multiple_slides`. -/
def buildSubs (bpm : ℚ) (basePos : Nat) (baseWait : ℚ) :
    List (List Char) → Except PyErr (List NoteData)
  | [] => pure []
  | p :: ps => do
    let p1 := pystrip p
    if p1 = [] then buildSubs bpm basePos baseWait ps
    else do
      let dw ← parse_slide_track_from_string p1 bpm
      let rest ← buildSubs bpm basePos baseWait ps
      match dw.1 with
      | none => pure rest
      | some dur =>
        pure ({ note_type := "slide", position := basePos,
                note_content := toL (toString basePos) ++ p1,
                slide_time := dur, slide_wait_time := baseWait,
                slide_end_position := extract_end_position p1,
                is_no_slide_head := true } :: rest)

/-- `ChartLoader._parse_multiple_slides`. -/
def parse_multiple_slides (s : List Char) (bpm : ℚ) : Except PyErr (List NoteData) := do
  if ¬ s.contains '*' then throw .valueError
  else do
    let fs ← parse_note_from_string s bpm
    match fs with
    | none => throw .valueError
    | some first =>
      if first.note_type ≠ "slide" then throw .valueError
      else
        match pySplitAll '*' s with
        | [] => pure [first]
        | p0 :: ptail =>
          if ptail = [] then pure [first]
          else do
            let first1 := { first with note_content := p0 }
            let subs ← buildSubs bpm first1.position first1.slide_wait_time ptail
            if subs = [] then pure [] else pure (first1 :: subs)

/-- `ChartLoader._parse_note`: dispatch between the chained-slide expansion
and the plain single-note grammar.  The Python `None` / single note / list
results are flattened into a list (`None` and empty list are both falsy in
the callers). -/
def parse_note (s : List Char) (bpm : ℚ) : Except PyErr (List NoteData) :=
  if (s.contains '-' || (toL "^v<>Vpqszw").any (fun c => s.contains c)) && s.contains '*' then
    parse_multiple_slides s bpm
  else do
    let n ← parse_note_from_string s bpm
    match n with
    | none => pure []
    | some x => pure [x]

/-- `ChartLoader._process_single_group`. -/
def process_single_group (cs : List Char) (bpm : ℚ) :
    Except PyErr (List NoteData × List Char) :=
  let noteText := cs.takeWhile (fun c => c ≠ ',' ∧ c ≠ '/' ∧ c ≠ '\n' ∧ c ≠ ' ')
  let rest := cs.dropWhile (fun c => c ≠ ',' ∧ c ≠ '/' ∧ c ≠ '\n' ∧ c ≠ ' ')
  if noteText = [] then pure ([], cs)
  else do
    let ns ← parse_note noteText bpm
    pure (ns, rest)

/-- The EACH loop of `ChartLoader._parse_note_group` (taken when a
top-level `/` was found), with fuel for the `while` loop. -/
def eachLoop (bpm : ℚ) : Nat → List Char → List NoteData →
    Except PyErr (List NoteData × List Char)
  | 0, _, _ => throw .timeout
  | fuel + 1, cs, acc =>
    match cs with
    | [] => pure (acc, [])
    | c :: rest =>
      if c = ',' ∨ c = '\n' then pure (acc, c :: rest)
      else if c = '/' then eachLoop bpm fuel rest acc
      else if c = ' ' ∨ c = '\t' ∨ c = '\r' then eachLoop bpm fuel rest acc
      else do
        let pr ← process_single_group (c :: rest) bpm
        if pr.1 = [] then pure (acc, c :: rest)
        else eachLoop bpm fuel pr.2 (acc ++ pr.1)

/-- The lookahead of `_parse_note_group` deciding whether the group is a
true EACH: scan for a `/` outside `[...]` before the next `,` or newline. -/
def hasTopSlash : List Char → Int → Bool
  | [], _ => false
  | c :: r, depth =>
    if c = ',' ∨ c = '\n' then false
    else if c = '[' then hasTopSlash r (depth + 1)
    else if c = ']' then hasTopSlash r (depth - 1)
    else if c = '/' ∧ depth = 0 then true
    else hasTopSlash r depth

/-- `ChartLoader._parse_note_group`. -/
def parse_note_group (cs : List Char) (bpm : ℚ) :
    Except PyErr (List NoteData × List Char) :=
  if hasTopSlash cs 0 then eachLoop bpm (cs.length + 1) cs []
  else
    let groupText := cs.takeWhile (fun c => c ≠ ',' ∧ c ≠ '\n')
    let rest := cs.dropWhile (fun c => c ≠ ',' ∧ c ≠ '\n')
    let segs := pySplitAll backtick groupText
    do
      let notes ← segs.foldlM
        (fun acc seg => do
          let seg1 := pystrip seg
          if seg1 = [] then pure acc
          else do
            let parsed ← parse_note seg1 bpm
            pure (acc ++ parsed))
        ([] : List NoteData)
      pure (notes, rest)

/-- `ChartLoader._is_note_start`. -/
def is_note_start (c : Char) : Bool :=
  (toL "12345678E").contains c || (toL "ABCDE").contains c

/-- The main scanning loop of `ChartLoader._parse_simai`, with fuel for
the `while i < len` loop (the source loop does not always progress). -/
def parse_simai_loop (fuel : Nat) (cs : List Char) (bpm : ℚ) (beats : Int)
    (time : ℚ) (y x : Nat) (acc : List TimingPoint) :
    Except PyErr (List TimingPoint) :=
  match fuel with
  | 0 => throw .timeout
  | fuel + 1 =>
    match cs with
    | [] => pure acc
    | c :: rest =>
      if c = '\n' then parse_simai_loop fuel rest bpm beats time (y + 1) 0 acc
      else
        let x1 := x + 1
        if c = '|' ∧ rest.head? = some '|' then
          parse_simai_loop fuel (dropUntil '\n' (c :: rest)) bpm beats time y x1 acc
        else if c = ' ' ∨ c = '\t' ∨ c = '\r' then
          parse_simai_loop fuel rest bpm beats time y x1 acc
        else if c = '(' then
          parse_simai_loop fuel ((dropUntil ')' rest).drop 1)
            ((pyFloat (takeUntil ')' rest)).getD bpm) beats time y x1 acc
        else if c = lbrace then
          parse_simai_loop fuel ((dropUntil rbrace rest).drop 1)
            bpm ((pyInt (takeUntil rbrace rest)).getD beats) time y x1 acc
        else if c = ',' then do
          let a ← pydiv 60 bpm
          let b ← pydiv 4 (beats : ℚ)
          parse_simai_loop fuel rest bpm beats (time + a * b) y x1 acc
        else if c = 'E' ∧ (rest = [] ∨ rest.head? = some '\n') then
          parse_simai_loop fuel rest bpm beats time y x1 acc
        else if is_note_start c then do
          let pr ← parse_note_group (c :: rest) bpm
          let acc1 :=
            if pr.1 = [] then acc
            else acc ++ [{ time := time, bpm := bpm, notes := pr.1,
                           raw_text_position_y := y, raw_text_position_x := x1 - 1 }]
          parse_simai_loop fuel pr.2 bpm beats time y x1 acc1
        else parse_simai_loop fuel rest bpm beats time y x1 acc

/-- `ChartLoader._parse_simai`: the difficulty-track parse entry point.
Initial state matches the source: bpm 120, four beats per measure,
elapsed time `first_beat_time`. -/
def parse_simai (cs : List Char) (first_beat_time : ℚ) : Except PyErr (List TimingPoint) :=
  parse_simai_loop (cs.length + 1) cs 120 4 first_beat_time 0 0 []

instance {ε α : Type} [DecidableEq ε] [DecidableEq α] : DecidableEq (Except ε α) :=
  fun x y =>
    match x, y with
    | .ok a, .ok b =>
      match decEq a b with
      | isTrue h => isTrue (h ▸ rfl)
      | isFalse h => isFalse (fun hh => h (Except.ok.inj hh))
    | .error a, .error b =>
      match decEq a b with
      | isTrue h => isTrue (h ▸ rfl)
      | isFalse h => isFalse (fun hh => h (Except.error.inj hh))
    | .ok _, .error _ => isFalse (fun hh => Except.noConfusion hh)
    | .error _, .ok _ => isFalse (fun hh => Except.noConfusion hh)

/-- Projection of a parse result to the per-point data the claims talk
about: time and, per note, variant tag and position. -/
def tpView (r : Except PyErr (List TimingPoint)) :
    Except PyErr (List (ℚ × List (String × Nat))) :=
  r.map (List.map (fun tp => (tp.time, tp.notes.map (fun n => (n.note_type, n.position)))))

unseal Rat.mul Rat.add Rat.sub Rat.inv in
/-- Claim C2: each `,` advances time by `60/bpm * 4/beatsPerMeasure`
seconds, so `"(120){4}1,2,3,4,"` with offset 0 parses to four TimingPoints
at 0.0, 0.5, 1.0 and 1.5 seconds, each holding exactly one tap note at
positions 1, 2, 3, 4 respectively. -/
theorem c2_time_advance_taps :
    tpView (parse_simai (toL "(120){4}1,2,3,4,") 0)
      = .ok [(0, [("tap", 1)]), (1/2, [("tap", 2)]), (1, [("tap", 3)]), (3/2, [("tap", 4)])] := by
  decide

unseal Rat.mul Rat.add Rat.sub Rat.inv in
/-- Claim C8: `"1/2,"` (true EACH) and `` "1`2," `` (pseudo-EACH) each
parse to exactly one TimingPoint holding two tap notes at positions 1 and
2, at the identical timestamp 0. -/
theorem c8_each_and_pseudo_each :
    tpView (parse_simai (toL "1/2,") 0) = .ok [(0, [("tap", 1), ("tap", 2)])]
    ∧ tpView (parse_simai (toL "1`2,") 0) = .ok [(0, [("tap", 1), ("tap", 2)])] := by
  constructor
  · decide
  · decide

unseal Rat.mul Rat.add Rat.sub Rat.inv in
/-- Claim C1 counterexample: the difficulty parse is not exception-free.
On the malformed EACH group `1`, slash, `-5`, comma, the splitter hands
the segment `-5` to `_parse_note_from_string`, whose head conversion
(Python `int` of the minus character) raises an uncaught ValueError. -/
theorem c1_counterexample_raises :
    parse_simai (toL "1/-5,") 0 = .error .valueError := by decide

unseal Rat.mul Rat.add Rat.sub Rat.inv in
/-- Claim C1 amended: the difficulty parse is not total.  It can raise a
ValueError on malformed input (an EACH segment whose first character is
not a position character, as in the group `1`, slash, `-5`, comma), while
returning normally on well-formed input such as `"1,2,"`. -/
theorem c1_amended_parse_can_raise :
    parse_simai (toL "1/-5,") 0 = .error .valueError
    ∧ (parse_simai (toL "1,2,") 0).map (List.map TimingPoint.time) = .ok [0, 1/2] := by
  constructor
  · decide
  · decide

/-- Projection of a note-parse result to `(duration, wait)` of the slide. -/
def slideView (r : Except PyErr (Option NoteData)) : Except PyErr (Option (ℚ × ℚ)) :=
  r.map (Option.map (fun n => (n.slide_time, n.slide_wait_time)))

unseal Rat.mul Rat.add Rat.sub Rat.inv in
/-- Claim C3 counterexample: at tempo 120 the slide token `"1-5[8:3]"`
resolves `durationSeconds = (60/120)*4/8*3 = 0.75`, not `1.5` as the
claim states (its `waitSeconds = 0.5` part is right). -/
theorem c3_counterexample_duration :
    slideView (parse_note_from_string (toL "1-5[8:3]") 120) = .ok (some (3/4, 1/2))
    ∧ (3/4 : ℚ) ≠ 3/2 := by
  constructor
  · decide
  · decide

unseal Rat.mul Rat.add Rat.sub Rat.inv in
/-- Claim C3 amended: at tempo 120, `"1-5[8:3]"` resolves
`durationSeconds = 0.75` and `waitSeconds = 0.5`; `"1-5[160#8:3]"`
resolves `durationSeconds = 0.5625` and `waitSeconds = 0.375`; and
`"1-5[3##1.5]"` resolves `waitSeconds = 3.0` and
`durationSeconds = 1.5` exactly. -/
theorem c3_amended_slide_timings :
    slideView (parse_note_from_string (toL "1-5[8:3]") 120) = .ok (some (3/4, 1/2))
    ∧ slideView (parse_note_from_string (toL "1-5[160#8:3]") 120) = .ok (some (9/16, 3/8))
    ∧ slideView (parse_note_from_string (toL "1-5[3##1.5]") 120) = .ok (some (3/2, 3)) := by
  refine ⟨by decide, by decide, by decide⟩

unseal Rat.mul Rat.add Rat.sub Rat.inv in
/-- Claim C5 counterexample: two note-groups at the same elapsed time
(separated only by a newline, with no `,` between them) are emitted as two
distinct TimingPoints with identical `time`, not concatenated into one:
`_parse_simai` always appends a fresh TimingPoint for a nonempty group and
never merges by timestamp. -/
theorem c5_counterexample_no_merge :
    tpView (parse_simai (toL "1\n2,") 0) = .ok [(0, [("tap", 1)]), (0, [("tap", 2)])] := by
  decide

unseal Rat.mul Rat.add Rat.sub Rat.inv in
/-- Claim C5 amended: note-groups encountered with no time-advance token
between them are NOT folded into one TimingPoint; every nonempty
note-group appends its own TimingPoint, so groups at the same timestamp
yield multiple TimingPoints with equal `time` values, in arrival order. -/
theorem c5_amended_one_point_per_group :
    (parse_simai (toL "1\n2,") 0).map
        (List.map (fun tp => (tp.time, tp.notes.map (fun n => n.position))))
      = .ok [(0, [1]), (0, [2])] := by
  decide

/-- Every note built by the chained-track loop of `_parse_multiple_slides`
is headless and carries the base position and base wait time. -/
lemma buildSubs_mem (bpm : ℚ) (basePos : Nat) (baseWait : ℚ) :
    ∀ parts l, buildSubs bpm basePos baseWait parts = .ok l →
      ∀ n ∈ l, n.is_no_slide_head = true ∧ n.position = basePos ∧
        n.slide_wait_time = baseWait := by
  intro parts
  induction parts with
  | nil =>
    intro l h n hn
    simp only [buildSubs] at h
    cases h
    simp at hn
  | cons p ps ih =>
    intro l h n hn
    simp only [buildSubs] at h
    split at h
    · exact ih l h n hn
    · cases hdw : parse_slide_track_from_string (pystrip p) bpm with
      | error e => rw [hdw] at h; simp [Bind.bind, Except.bind] at h
      | ok dw =>
        rw [hdw] at h
        cases hrest : buildSubs bpm basePos baseWait ps with
        | error e => rw [hrest] at h; simp [Bind.bind, Except.bind] at h
        | ok rest =>
          rw [hrest] at h
          simp only [Bind.bind, Except.bind] at h
          cases hfst : dw.1 with
          | none =>
            rw [hfst] at h
            simp only [pure, Except.pure, Except.ok.injEq] at h
            subst h
            exact ih rest hrest n hn
          | some dur =>
            rw [hfst] at h
            simp only [pure, Except.pure, Except.ok.injEq] at h
            subst h
            rcases List.mem_cons.mp hn with h1 | h2
            · subst h1; exact ⟨rfl, rfl, rfl⟩
            · exact ih rest hrest n h2

unseal Rat.mul Rat.add Rat.sub Rat.inv in
/-- Claim C7: in every chained slide expanded by `_parse_multiple_slides`,
each slide after the first is forced headless and carries the same origin
position and the same wait time as the first slide, while durations come
from each track's own bracket — shown concretely on
`"1-4[4:3]*-6[8:5]"` at tempo 120, whose two slides have independent
durations 1.5 and 1.25 seconds, shared wait 0.5 seconds, and a
non-headless first slide. -/
theorem c7_chained_slides_invariant :
    (∀ s bpm f rest, parse_multiple_slides s bpm = .ok (f :: rest) →
      ∀ n ∈ rest, n.is_no_slide_head = true ∧ n.position = f.position ∧
        n.slide_wait_time = f.slide_wait_time)
    ∧ (parse_note (toL "1-4[4:3]*-6[8:5]") 120).map
        (List.map (fun n => (n.position, n.is_no_slide_head, n.slide_time,
          n.slide_wait_time, n.slide_end_position)))
      = .ok [(1, false, 3/2, 1/2, 4), (1, true, 5/4, 1/2, 6)] := by
  constructor
  · intro s bpm f rest h n hn
    simp only [parse_multiple_slides] at h
    split at h
    · exact Except.noConfusion h
    · cases hfs : parse_note_from_string s bpm with
      | error e => rw [hfs] at h; simp [Bind.bind, Except.bind] at h
      | ok fs =>
        rw [hfs] at h
        simp only [Bind.bind, Except.bind] at h
        split at h
        · exact Except.noConfusion h
        · rename_i first
          split at h
          · exact Except.noConfusion h
          · split at h
            · simp only [pure, Except.pure, Except.ok.injEq, List.cons.injEq] at h
              obtain ⟨h1, h2⟩ := h
              subst h2
              simp at hn
            · rename_i p0 ptail hsp
              split at h
              · simp only [pure, Except.pure, Except.ok.injEq, List.cons.injEq] at h
                obtain ⟨h1, h2⟩ := h
                subst h2
                simp at hn
              · cases hsub : buildSubs bpm first.position first.slide_wait_time ptail with
                | error e => rw [hsub] at h; simp [Bind.bind, Except.bind] at h
                | ok subs =>
                  rw [hsub] at h
                  dsimp only at h
                  by_cases hv : subs = []
                  · rw [if_pos hv] at h
                    simp [pure, Except.pure] at h
                  · rw [if_neg hv] at h
                    simp only [pure, Except.pure, Except.ok.injEq, List.cons.injEq] at h
                    obtain ⟨hf, hr⟩ := h
                    subst hr
                    have hm := buildSubs_mem bpm first.position first.slide_wait_time
                      ptail subs hsub n hn
                    obtain ⟨h1, h2, h3⟩ := hm
                    subst hf
                    exact ⟨h1, h2, h3⟩
  · decide

lemma contains_eq_true_of_mem (l : List Char) (c : Char) (h : c ∈ l) : l.contains c = true :=
  List.elem_iff.mpr h

lemma contains_eq_false_iff (l : List Char) (c : Char) : l.contains c = false ↔ c ∉ l := by
  constructor
  · intro h hm
    exact Bool.noConfusion ((contains_eq_true_of_mem l c hm).symm.trans h)
  · intro h
    cases hc : l.contains c with
    | false => rfl
    | true => exact absurd (List.elem_iff.mp hc) h

lemma dropWhile_all_false (p : Char → Bool) :
    ∀ l : List Char, (∀ c ∈ l, p c = false) → l.dropWhile p = l := by
  intro l h
  cases l with
  | nil => rfl
  | cons c r => simp [List.dropWhile_cons, h c (List.mem_cons_self c r)]

/-- A whitespace-free string is unchanged by `strip`. -/
lemma pystrip_noWS (l : List Char) (h : ∀ c ∈ l, pyIsWS c = false) : pystrip l = l := by
  unfold pystrip
  rw [dropWhile_all_false pyIsWS l h]
  rw [dropWhile_all_false pyIsWS l.reverse (fun c hc => h c (List.mem_reverse.mp hc))]
  exact List.reverse_reverse l

/-- A separator starting with a character absent from the string never
splits it. -/
lemma pySplitOnce_not_mem (a : Char) (sep l : List Char) (h : a ∉ l) :
    pySplitOnce (a :: sep) l = none := by
  induction l with
  | nil => simp [pySplitOnce]
  | cons c r ih =>
    have hac : ¬ (a = c) := fun e => h (e ▸ List.mem_cons_self c r)
    simp [pySplitOnce, beginsWith, hac, ih (fun hm => h (List.mem_cons_of_mem c hm))]

lemma pySplitAll_not_mem (sep : Char) :
    ∀ l : List Char, sep ∉ l → pySplitAll sep l = [l] := by
  intro l h
  induction l with
  | nil => rfl
  | cons c r ih =>
    have hc : ¬ (c = sep) := fun e => h (e ▸ List.mem_cons_self c r)
    rw [pySplitAll, ih (fun hm => h (List.mem_cons_of_mem c hm))]
    simp [hc]

lemma pySplitAll_append (sep : Char) (b : List Char) :
    ∀ a : List Char, sep ∉ a → pySplitAll sep (a ++ sep :: b) = a :: pySplitAll sep b := by
  intro a h
  induction a with
  | nil => simp [pySplitAll]
  | cons c r ih =>
    have hc : ¬ (c = sep) := fun e => h (e ▸ List.mem_cons_self c r)
    rw [List.cons_append, pySplitAll, ih (fun hm => h (List.mem_cons_of_mem c hm))]
    simp [hc]

lemma lastDigitSplit_sublist :
    ∀ (l : List Char) (d : Nat) (a : List Char), lastDigitSplit l = some (d, a) → a.Sublist l := by
  intro l
  induction l with
  | nil => intro d a h; simp [lastDigitSplit] at h
  | cons c r ih =>
    intro d a h
    rw [lastDigitSplit] at h
    cases hr : lastDigitSplit r with
    | some p =>
      rw [hr] at h
      dsimp only at h
      obtain ⟨d2, a2⟩ := p
      rw [Option.some.injEq, Prod.mk.injEq] at h
      obtain ⟨h1, h2⟩ := h
      rw [← h2]
      exact List.Sublist.cons c (ih d2 a2 hr)
    | none =>
      rw [hr] at h
      dsimp only at h
      by_cases hdg : c.isDigit
      · rw [if_pos hdg] at h
        rw [Option.some.injEq, Prod.mk.injEq] at h
        obtain ⟨h1, h2⟩ := h
        rw [← h2]
        exact List.sublist_cons_self c r
      · rw [if_neg hdg] at h
        exact absurd h (by simp)

/-- The suffix left over by the slide-track scanner is a sublist of its
input. -/
lemma slideTrackScan_sublist (s : List Char) : (slideTrackScan s).2.Sublist s := by
  have key : ∀ t : List Char, t.Sublist s →
      (let s2 := t.dropWhile (fun c => extraShapes.contains c)
       let pre := s2.takeWhile (fun ch => ch ≠ '[' ∧ ch ≠ '*')
       let post := s2.dropWhile (fun ch => ch ≠ '[' ∧ ch ≠ '*')
       let pr : Nat × List Char :=
         match lastDigitSplit pre with
         | some (d, a) => (d, a ++ post)
         | none => (0, pre ++ post)
       if pr.2.head? = some '@' then pr.2.tail else pr.2).Sublist s := by
    intro t ht
    dsimp only
    have hs2 : (t.dropWhile (fun c => extraShapes.contains c)).Sublist t :=
      List.dropWhile_sublist _
    have hs2s : (t.dropWhile (fun c => extraShapes.contains c)).Sublist s := hs2.trans ht
    cases hld : lastDigitSplit ((t.dropWhile (fun c => extraShapes.contains c)).takeWhile
        (fun ch => ch ≠ '[' ∧ ch ≠ '*')) with
    | none =>
      simp only [hld]
      have happ :
          ((t.dropWhile (fun c => extraShapes.contains c)).takeWhile
              (fun ch => ch ≠ '[' ∧ ch ≠ '*') ++
            (t.dropWhile (fun c => extraShapes.contains c)).dropWhile
              (fun ch => ch ≠ '[' ∧ ch ≠ '*')).Sublist s := by
        rw [List.takeWhile_append_dropWhile]
        exact hs2s
      split
      · exact (List.tail_sublist _).trans happ
      · exact happ
    | some p =>
      obtain ⟨d, a⟩ := p
      simp only [hld]
      have ha := lastDigitSplit_sublist _ d a hld
      have happ :
          (a ++ (t.dropWhile (fun c => extraShapes.contains c)).dropWhile
              (fun ch => ch ≠ '[' ∧ ch ≠ '*')).Sublist s := by
        have h2 := ha.append_right ((t.dropWhile (fun c => extraShapes.contains c)).dropWhile
          (fun ch => ch ≠ '[' ∧ ch ≠ '*'))
        rw [List.takeWhile_append_dropWhile] at h2
        exact h2.trans hs2s
      split
      · exact (List.tail_sublist _).trans happ
      · exact happ
  unfold slideTrackScan
  cases s with
  | nil => exact key [] (by simp)
  | cons c r =>
    by_cases hc : slideShapes.contains c
    · simp only [hc, if_true]
      exact key r (List.sublist_cons_self c r)
    · simp only [hc, if_false]
      exact key (c :: r) (List.Sublist.refl _)

/-- Claim C4: a slide bracket of the plain form `D:C` (no `#`) resolves to
`durationSeconds = (60/bpm) * 4/D * C` with the default wait of one beat
`60/bpm`; and a slide track with no bracket at all resolves to duration 0
and the default wait of one beat.  `D` must be a nonzero numeral and the
tempo nonzero, since the source divides by both. -/
theorem c4_plain_bracket_and_no_bracket :
    (∀ (dstr cstr : List Char) (d c bpm : ℚ),
      bpm ≠ 0 → d ≠ 0 →
      (∀ ch ∈ dstr, pyIsWS ch = false) → (∀ ch ∈ cstr, pyIsWS ch = false) →
      ':' ∉ dstr → ':' ∉ cstr → '#' ∉ dstr → '#' ∉ cstr →
      pyFloat dstr = some d → pyFloat cstr = some c →
      parse_slide_timing (dstr ++ ':' :: cstr) bpm = .ok (60 / bpm * 4 / d * c, 60 / bpm))
    ∧ (∀ (s : List Char) (bpm : ℚ), bpm ≠ 0 → '[' ∉ s →
      parse_slide_track s bpm = .ok (0, 60 / bpm, (slideTrackScan s).1)) := by
  constructor
  · intro dstr cstr d c bpm hbpm hd hwd hwc hcd hcc hhd hhc hfd hfc
    have hws : ∀ ch ∈ dstr ++ ':' :: cstr, pyIsWS ch = false := by
      intro ch hch
      rcases List.mem_append.mp hch with h1 | h2
      · exact hwd ch h1
      · rcases List.mem_cons.mp h2 with h3 | h4
        · subst h3; rfl
        · exact hwc ch h4
    have hstrip : pystrip (dstr ++ ':' :: cstr) = dstr ++ ':' :: cstr := pystrip_noWS _ hws
    have hnh : '#' ∉ dstr ++ ':' :: cstr := by
      intro hm
      rcases List.mem_append.mp hm with h1 | h2
      · exact hhd h1
      · rcases List.mem_cons.mp h2 with h3 | h4
        · exact absurd h3 (by decide)
        · exact hhc h4
    have hsp2 : pySplitOnce (toL "##") (dstr ++ ':' :: cstr) = none := by
      show pySplitOnce ('#' :: ['#']) (dstr ++ ':' :: cstr) = none
      exact pySplitOnce_not_mem '#' ['#'] _ hnh
    have hsp1 : pySplitOnce (toL "#") (dstr ++ ':' :: cstr) = none := by
      show pySplitOnce ('#' :: []) (dstr ++ ':' :: cstr) = none
      exact pySplitOnce_not_mem '#' [] _ hnh
    have hct : (dstr ++ ':' :: cstr).contains ':' = true :=
      contains_eq_true_of_mem _ _ (by simp)
    have hsa : pySplitAll ':' (dstr ++ ':' :: cstr) = [dstr, cstr] := by
      rw [pySplitAll_append ':' cstr dstr hcd, pySplitAll_not_mem ':' cstr hcc]
    have hdivb : pydiv 60 bpm = .ok (60 / bpm) := by simp [pydiv, hbpm]
    have hdivd : pydiv (60 / bpm * 4) d = .ok (60 / bpm * 4 / d) := by simp [pydiv, hd]
    have hpbv : parse_beat_value (dstr ++ ':' :: cstr) bpm = .ok (60 / bpm * 4 / d * c) := by
      simp only [parse_beat_value, hstrip, hdivb, Bind.bind, Except.bind, hct, if_true, hsa,
        hfd, hfc, hdivd, pure, Except.pure]
    simp only [parse_slide_timing, hstrip, hdivb, Bind.bind, Except.bind, hsp2, hsp1, hct,
      if_true, hpbv, pure, Except.pure]
  · intro s bpm hbpm hbr
    have hdivb : pydiv 60 bpm = .ok (60 / bpm) := by simp [pydiv, hbpm]
    simp only [parse_slide_track, hdivb, Bind.bind, Except.bind]
    cases hsc : (slideTrackScan s).2 with
    | nil => rfl
    | cons ch r =>
      have hch : ch ≠ '[' := by
        intro he
        subst he
        have hmem : '[' ∈ (slideTrackScan s).2 := by
          rw [hsc]; exact List.mem_cons_self _ _
        exact hbr ((slideTrackScan_sublist s).subset hmem)
      split
      · rename_i r2 heq
        exact absurd ((List.cons.injEq _ _ _ _).mp heq).1 hch
      · rfl

unseal Rat.mul Rat.add Rat.sub Rat.inv in
/-- Witness for C4 at a concrete bracket `8:3` and a concrete bracketless
track `-5`, both at tempo 120. -/
theorem c4_witness_concrete :
    parse_slide_timing (toL "8" ++ ':' :: toL "3") 120 = .ok (60 / 120 * 4 / 8 * 3, 60 / 120)
    ∧ parse_slide_track (toL "-5") 120 = .ok (0, 60 / 120, (slideTrackScan (toL "-5")).1) :=
  ⟨c4_plain_bracket_and_no_bracket.1 (toL "8") (toL "3") 8 3 120 (by norm_num) (by norm_num)
      (by decide) (by decide) (by decide) (by decide) (by decide) (by decide)
      (by decide) (by decide),
    c4_plain_bracket_and_no_bracket.2 (toL "-5") 120 (by norm_num) (by decide)⟩

/-- The first slide of the chained token `1-4[4:3]*-6[8:5]` at tempo 120. -/
def c7firstSlide : NoteData :=
  { note_type := "slide", position := 1, note_content := toL "1-4[4:3]",
    slide_time := 3/2, slide_wait_time := 1/2, slide_end_position := 4 }

/-- The second, chained slide of the token `1-4[4:3]*-6[8:5]` at tempo 120. -/
def c7secondSlide : NoteData :=
  { note_type := "slide", position := 1, note_content := toL "1-6[8:5]",
    slide_time := 5/4, slide_wait_time := 1/2, slide_end_position := 6,
    is_no_slide_head := true }

unseal Rat.mul Rat.add Rat.sub Rat.inv in
/-- Witness for C7 at the concrete chained slide `1-4[4:3]*-6[8:5]`. -/
theorem c7_witness_concrete :
    c7secondSlide.is_no_slide_head = true ∧
      c7secondSlide.position = c7firstSlide.position ∧
      c7secondSlide.slide_wait_time = c7firstSlide.slide_wait_time :=
  c7_chained_slides_invariant.1 (toL "1-4[4:3]*-6[8:5]") 120 c7firstSlide [c7secondSlide]
    (by decide) c7secondSlide (by simp)

lemma noteTrailingBreak_preserves (n1 : NoteData) (rem2 : List Char) :
    (noteTrailingBreak n1 rem2).note_type = n1.note_type ∧
      (noteTrailingBreak n1 rem2).is_slide_break = n1.is_slide_break := by
  unfold noteTrailingBreak
  split
  · split
    · exact ⟨rfl, rfl⟩
    · split
      · exact ⟨rfl, rfl⟩
      · exact ⟨rfl, rfl⟩
  · exact ⟨rfl, rfl⟩

lemma noteDefaultHold_preserves (bpm : ℚ) (hh : Bool) (n2 m : NoteData)
    (h : noteDefaultHold bpm hh n2 = .ok m) :
    m.note_type = n2.note_type ∧ m.is_slide_break = n2.is_slide_break := by
  unfold noteDefaultHold at h
  split at h
  · cases hpb : parse_beat_value (toL "1280:1") bpm with
    | error e => rw [hpb] at h; simp [Bind.bind, Except.bind] at h
    | ok v =>
      rw [hpb] at h
      simp only [Bind.bind, Except.bind, pure, Except.pure, Except.ok.injEq] at h
      subst h
      exact ⟨rfl, rfl⟩
  · simp only [pure, Except.pure, Except.ok.injEq] at h
    subst h
    exact ⟨rfl, rfl⟩

/-- The post-processing after the modifier loop never changes the variant
tag or the body-break flag of the note. -/
lemma notePostProcess_preserves (bpm : ℚ) (n : NoteData) (hh hs : Bool) (rem : List Char)
    (m : NoteData) (h : notePostProcess bpm n hh hs rem = .ok (some m)) :
    m.note_type = n.note_type ∧ m.is_slide_break = n.is_slide_break := by
  simp only [notePostProcess] at h
  split at h
  · cases hcv : catchVE (parse_beat_value (takeUntil ']' rem.tail) bpm) 0 with
    | error e => rw [hcv] at h; simp [Bind.bind, Except.bind] at h
    | ok ht =>
      rw [hcv] at h
      simp only [Bind.bind, Except.bind, pure, Except.pure] at h
      cases hdh : noteDefaultHold bpm hh
          (noteTrailingBreak ({ n with hold_time := ht })
            ((dropUntil ']' rem.tail).drop 1)) with
      | error e => rw [hdh] at h; simp at h
      | ok n3 =>
        rw [hdh] at h
        simp only [Except.ok.injEq, Option.some.injEq] at h
        subst h
        have h1 := noteDefaultHold_preserves _ _ _ _ hdh
        have h2 := noteTrailingBreak_preserves ({ n with hold_time := ht })
          ((dropUntil ']' rem.tail).drop 1)
        exact ⟨h1.1.trans h2.1, h1.2.trans h2.2⟩
  · simp only [Bind.bind, Except.bind, pure, Except.pure] at h
    cases hdh : noteDefaultHold bpm hh (noteTrailingBreak n rem) with
    | error e => rw [hdh] at h; simp at h
    | ok n3 =>
      rw [hdh] at h
      simp only [Except.ok.injEq, Option.some.injEq] at h
      subst h
      have h1 := noteDefaultHold_preserves _ _ _ _ hdh
      have h2 := noteTrailingBreak_preserves n rem
      exact ⟨h1.1.trans h2.1, h1.2.trans h2.2⟩

/-- Through the modifier loop, a note that is not yet a slide and has no
body-break flag ends up with `is_slide_break` equal to the whole-token
scan for a `b` character exactly when it becomes a slide, and with the
flag still cleared when it does not. -/
lemma modLoop_slide_break (full : List Char) (bpm : ℚ) :
    ∀ (rest : List Char) (n : NoteData) (hh hs : Bool) (dc : Nat) (n2 : NoteData)
      (hh2 hs2 : Bool) (rem : List Char),
      modLoop full bpm rest n hh hs dc = .ok (n2, hh2, hs2, rem) →
      n.note_type ≠ "slide" → n.is_slide_break = false →
      (n2.note_type = "slide" → n2.is_slide_break = full.contains 'b') ∧
      (n2.note_type ≠ "slide" → n2.is_slide_break = false) := by
  intro rest
  induction rest with
  | nil =>
    intro n hh hs dc n2 hh2 hs2 rem h ht hb
    simp only [modLoop, pure, Except.pure, Except.ok.injEq, Prod.mk.injEq] at h
    obtain ⟨h1, -⟩ := h
    subst h1
    exact ⟨fun hc => absurd hc ht, fun _ => hb⟩
  | cons c r ih =>
    intro n hh hs dc n2 hh2 hs2 rem h ht hb
    rw [modLoop] at h
    by_cases hc1 : c = '['
    · rw [if_pos hc1] at h
      simp only [pure, Except.pure, Except.ok.injEq, Prod.mk.injEq] at h
      obtain ⟨h1, -⟩ := h
      subst h1
      exact ⟨fun hc => absurd hc ht, fun _ => hb⟩
    · rw [if_neg hc1] at h
      by_cases hc2 : c = 'h'
      · rw [if_pos hc2] at h
        refine ih _ _ _ _ _ _ _ _ h ?_ hb
        dsimp only
        split <;> decide
      · rw [if_neg hc2] at h
        by_cases hc3 : c = 'b'
        · rw [if_pos hc3] at h
          by_cases hsl : n.note_type = "slide"
          · exact absurd hsl ht
          · rw [if_neg hsl] at h
            exact ih _ _ _ _ _ _ _ _ h ht hb
        · rw [if_neg hc3] at h
          by_cases hc4 : c = 'x'
          · rw [if_pos hc4] at h
            exact ih _ _ _ _ _ _ _ _ h ht hb
          · rw [if_neg hc4] at h
            by_cases hc5 : c = 'f'
            · rw [if_pos hc5] at h
              exact ih _ _ _ _ _ _ _ _ h ht hb
            · rw [if_neg hc5] at h
              by_cases hc6 : c = '$'
              · rw [if_pos hc6] at h
                exact ih _ _ _ _ _ _ _ _ h ht hb
              · rw [if_neg hc6] at h
                by_cases hc7 : c = '@'
                · rw [if_pos hc7] at h
                  exact ih _ _ _ _ _ _ _ _ h ht hb
                · rw [if_neg hc7] at h
                  by_cases hc8 : c = '!' ∨ c = '?'
                  · rw [if_pos hc8] at h
                    exact ih _ _ _ _ _ _ _ _ h ht hb
                  · rw [if_neg hc8] at h
                    by_cases hc9 : slideShapes.contains c = true
                    · rw [if_pos hc9] at h
                      cases hpt : parse_slide_track (c :: r) bpm with
                      | error e => rw [hpt] at h; simp [Bind.bind, Except.bind] at h
                      | ok dwe =>
                        rw [hpt] at h
                        simp only [Bind.bind, Except.bind, pure, Except.pure,
                          Except.ok.injEq, Prod.mk.injEq] at h
                        obtain ⟨h1, -⟩ := h
                        subst h1
                        constructor
                        · intro hc2
                          dsimp only
                          have hsk : (skip_past_all_slide_tracks full (c :: r)).2
                              = full.contains 'b' := rfl
                          rw [hsk]
                          cases hcb : full.contains 'b' with
                          | false => simp [hb]
                          | true => simp
                        · intro hc
                          exact absurd rfl hc
                    · rw [if_neg hc9] at h
                      exact ih _ _ _ _ _ _ _ _ h ht hb

unseal Rat.mul Rat.add Rat.sub Rat.inv in
/-- Claim C6 counterexample: in `1b-5` the only `b` is before the first
slide shape marker (the suffix from the first shape character on contains
no `b`), yet the parsed slide carries `is_slide_break = true`, because the
source checks `"b" in note_str` over the whole token. -/
theorem c6_counterexample_break_before_marker :
    ((toL "1b-5").dropWhile (fun c => ¬ slideShapes.contains c)).contains 'b' = false
    ∧ (parse_note_from_string (toL "1b-5") 120).map
        (Option.map (fun n => (n.note_type, n.is_slide_break, n.is_break)))
      = .ok (some ("slide", true, true)) := by
  constructor
  · decide
  · decide

/-- Claim C6 amended: a slide note parsed by `_parse_note_from_string` has
its body-break flag set exactly when some `b` occurs ANYWHERE in the
(stripped) note token text — before or after the first shape marker — not
only after it; a `b` before the marker additionally sets the ordinary
break flag. -/
theorem c6_amended_body_break_whole_token :
    ∀ (s : List Char) (bpm : ℚ) (n : NoteData),
      parse_note_from_string s bpm = .ok (some n) → n.note_type = "slide" →
      n.is_slide_break = (pystrip s).contains 'b' := by
  intro s bpm n h hsl
  simp only [parse_note_from_string] at h
  cases hst : pystrip s with
  | nil => rw [hst] at h; simp [pure, Except.pure] at h
  | cons c rest =>
    rw [hst] at h
    dsimp only at h
    by_cases hca : (toL "ABCDE").contains c = true
    · rw [if_pos hca] at h
      simp only [Bind.bind, Except.bind, pure, Except.pure] at h
      cases hml : modLoop (c :: rest) bpm (rest.dropWhile Char.isDigit)
          { note_type := "touch", position := digitsToNat (rest.takeWhile Char.isDigit),
            note_content := c :: rest, touch_area := [c] } false false 0 with
      | error e => rw [hml] at h; simp at h
      | ok r4 =>
        obtain ⟨n2, hh2, hs2, rem⟩ := r4
        rw [hml] at h
        have hpp := notePostProcess_preserves bpm n2 hh2 hs2 rem n h
        have hmb := modLoop_slide_break (c :: rest) bpm (rest.dropWhile Char.isDigit)
          _ false false 0 n2 hh2 hs2 rem hml
          (show ("touch" : String) ≠ "slide" by decide) rfl
        rw [hpp.1] at hsl
        rw [hpp.2]
        exact hmb.1 hsl
    · rw [if_neg hca] at h
      cases hpc : pyIntChar c with
      | error e =>
        rw [hpc] at h
        simp [Bind.bind, Except.bind] at h
      | ok p =>
        rw [hpc] at h
        simp only [Bind.bind, Except.bind, pure, Except.pure] at h
        cases hml : modLoop (c :: rest) bpm rest
            { note_type := "tap", position := p, note_content := c :: rest } false false 0 with
        | error e => rw [hml] at h; simp at h
        | ok r4 =>
          obtain ⟨n2, hh2, hs2, rem⟩ := r4
          rw [hml] at h
          have hpp := notePostProcess_preserves bpm n2 hh2 hs2 rem n h
          have hmb := modLoop_slide_break (c :: rest) bpm rest
            _ false false 0 n2 hh2 hs2 rem hml
            (show ("tap" : String) ≠ "slide" by decide) rfl
          rw [hpp.1] at hsl
          rw [hpp.2]
          exact hmb.1 hsl

/-- The note parsed from `1b-5` at tempo 120. -/
def c6note : NoteData :=
  { note_type := "slide", position := 1, note_content := toL "1b-5",
    is_break := true, is_slide_break := true,
    slide_wait_time := 1/2, slide_end_position := 5 }

unseal Rat.mul Rat.add Rat.sub Rat.inv in
/-- Witness for the amended C6 at the concrete token `1b-5`. -/
theorem c6_witness_concrete :
    c6note.is_slide_break = (pystrip (toL "1b-5")).contains 'b' :=
  c6_amended_body_break_whole_token (toL "1b-5") 120 c6note (by decide) (by decide)

/-- Every tempo directive body `(value)` in the text that parses as a
float is positive (checked at every position, the way the scanner reads a
directive: from the `(` to the next `)`). -/
def parensB : List Char → Bool
  | [] => true
  | c :: r =>
    ((if c = '(' then
        match pyFloat (takeUntil ')' r) with
        | some v => decide (0 < v)
        | none => true
      else true) && parensB r)

/-- Every division directive body `{value}` in the text that parses as an
int is positive. -/
def bracesB : List Char → Bool
  | [] => true
  | c :: r =>
    ((if c = lbrace then
        match pyInt (takeUntil rbrace r) with
        | some v => decide (0 < v)
        | none => true
      else true) && bracesB r)

lemma parensB_tail (c : Char) (r : List Char) (h : parensB (c :: r) = true) :
    parensB r = true := by
  rw [parensB, Bool.and_eq_true] at h
  exact h.2

lemma bracesB_tail (c : Char) (r : List Char) (h : bracesB (c :: r) = true) :
    bracesB r = true := by
  rw [bracesB, Bool.and_eq_true] at h
  exact h.2

lemma parensB_suffix (l l' : List Char) (hs : l' <:+ l) (h : parensB l = true) :
    parensB l' = true := by
  obtain ⟨p, rfl⟩ := hs
  induction p with
  | nil => exact h
  | cons c p ih => exact ih (parensB_tail c (p ++ l') h)

lemma bracesB_suffix (l l' : List Char) (hs : l' <:+ l) (h : bracesB l = true) :
    bracesB l' = true := by
  obtain ⟨p, rfl⟩ := hs
  induction p with
  | nil => exact h
  | cons c p ih => exact ih (bracesB_tail c (p ++ l') h)

lemma parensB_head (r : List Char) (v : ℚ) (h : parensB ('(' :: r) = true)
    (hf : pyFloat (takeUntil ')' r) = some v) : 0 < v := by
  rw [parensB, Bool.and_eq_true] at h
  have h1 := h.1
  rw [if_pos rfl, hf] at h1
  exact of_decide_eq_true h1

lemma bracesB_head (r : List Char) (v : Int) (h : bracesB (lbrace :: r) = true)
    (hf : pyInt (takeUntil rbrace r) = some v) : 0 < v := by
  rw [bracesB, Bool.and_eq_true] at h
  have h1 := h.1
  rw [if_pos rfl, hf] at h1
  exact of_decide_eq_true h1

lemma process_single_group_suffix (cs : List Char) (bpm : ℚ) (ns : List NoteData)
    (r : List Char) (h : process_single_group cs bpm = .ok (ns, r)) : r <:+ cs := by
  simp only [process_single_group] at h
  split at h
  · simp only [pure, Except.pure, Except.ok.injEq, Prod.mk.injEq] at h
    obtain ⟨-, h2⟩ := h
    exact h2 ▸ List.suffix_refl cs
  · cases hpn : parse_note (cs.takeWhile fun c => c ≠ ',' ∧ c ≠ '/' ∧ c ≠ '\n' ∧ c ≠ ' ') bpm with
    | error e => rw [hpn] at h; simp [Bind.bind, Except.bind] at h
    | ok ns2 =>
      rw [hpn] at h
      simp only [Bind.bind, Except.bind, pure, Except.pure, Except.ok.injEq,
        Prod.mk.injEq] at h
      obtain ⟨-, h2⟩ := h
      exact h2 ▸ List.dropWhile_suffix _

lemma eachLoop_suffix (bpm : ℚ) :
    ∀ (fuel : Nat) (cs : List Char) (acc ns : List NoteData) (r : List Char),
      eachLoop bpm fuel cs acc = .ok (ns, r) → r <:+ cs := by
  intro fuel
  induction fuel with
  | zero => intro cs acc ns r h; simp [eachLoop, throw, throwThe, MonadExceptOf.throw] at h
  | succ fuel ih =>
    intro cs acc ns r h
    cases cs with
    | nil =>
      rw [eachLoop] at h
      simp only [pure, Except.pure, Except.ok.injEq, Prod.mk.injEq] at h
      obtain ⟨-, h2⟩ := h
      exact h2 ▸ List.nil_suffix
    | cons c rest =>
      rw [eachLoop] at h
      by_cases h1 : c = ',' ∨ c = '\n'
      · rw [if_pos h1] at h
        simp only [pure, Except.pure, Except.ok.injEq, Prod.mk.injEq] at h
        obtain ⟨-, h2⟩ := h
        exact h2 ▸ List.suffix_refl _
      · rw [if_neg h1] at h
        by_cases h2 : c = '/'
        · rw [if_pos h2] at h
          exact (ih rest acc ns r h).trans (List.suffix_cons c rest)
        · rw [if_neg h2] at h
          by_cases h3 : c = ' ' ∨ c = '\t' ∨ c = '\r'
          · rw [if_pos h3] at h
            exact (ih rest acc ns r h).trans (List.suffix_cons c rest)
          · rw [if_neg h3] at h
            cases hps : process_single_group (c :: rest) bpm with
            | error e => rw [hps] at h; simp [Bind.bind, Except.bind] at h
            | ok pr =>
              rw [hps] at h
              simp only [Bind.bind, Except.bind] at h
              by_cases hpr : pr.1 = []
              · rw [if_pos hpr] at h
                simp only [pure, Except.pure, Except.ok.injEq, Prod.mk.injEq] at h
                obtain ⟨-, h2⟩ := h
                exact h2 ▸ List.suffix_refl _
              · rw [if_neg hpr] at h
                exact (ih pr.2 (acc ++ pr.1) ns r h).trans
                  (process_single_group_suffix (c :: rest) bpm pr.1 pr.2 hps)

lemma parse_note_group_suffix (cs : List Char) (bpm : ℚ) (ns : List NoteData)
    (r : List Char) (h : parse_note_group cs bpm = .ok (ns, r)) : r <:+ cs := by
  simp only [parse_note_group] at h
  split at h
  · exact eachLoop_suffix bpm (cs.length + 1) cs [] ns r h
  · cases hf : List.foldlM
        (fun acc seg => do
          let seg1 := pystrip seg
          if seg1 = [] then pure acc
          else do
            let parsed ← parse_note seg1 bpm
            pure (acc ++ parsed))
        ([] : List NoteData)
        (pySplitAll backtick (cs.takeWhile fun c => c ≠ ',' ∧ c ≠ '\n')) with
    | error e => rw [hf] at h; simp [Bind.bind, Except.bind] at h
    | ok notes =>
      rw [hf] at h
      simp only [Bind.bind, Except.bind, pure, Except.pure, Except.ok.injEq,
        Prod.mk.injEq] at h
      obtain ⟨-, h2⟩ := h
      exact h2 ▸ List.dropWhile_suffix _

/-- Loop invariant for C10: the main scanning loop only ever appends
TimingPoints whose note list is nonempty. -/
lemma parse_simai_loop_nonempty :
    ∀ (fuel : Nat) (cs : List Char) (bpm : ℚ) (beats : Int) (time : ℚ) (y x : Nat)
      (acc l : List TimingPoint),
      parse_simai_loop fuel cs bpm beats time y x acc = .ok l →
      (∀ tp ∈ acc, tp.notes ≠ []) → ∀ tp ∈ l, tp.notes ≠ [] := by
  intro fuel
  induction fuel with
  | zero =>
    intro cs bpm beats time y x acc l h hacc
    simp [parse_simai_loop, throw, throwThe, MonadExceptOf.throw] at h
  | succ fuel ih =>
    intro cs bpm beats time y x acc l h hacc
    cases cs with
    | nil =>
      rw [parse_simai_loop] at h
      simp only [pure, Except.pure, Except.ok.injEq] at h
      subst h
      exact hacc
    | cons c rest =>
      rw [parse_simai_loop] at h
      by_cases h1 : c = '\n'
      · rw [if_pos h1] at h; exact ih _ _ _ _ _ _ _ _ h hacc
      · rw [if_neg h1] at h
        by_cases h2 : c = '|' ∧ rest.head? = some '|'
        · rw [if_pos h2] at h; exact ih _ _ _ _ _ _ _ _ h hacc
        · rw [if_neg h2] at h
          by_cases h3 : c = ' ' ∨ c = '\t' ∨ c = '\r'
          · rw [if_pos h3] at h; exact ih _ _ _ _ _ _ _ _ h hacc
          · rw [if_neg h3] at h
            by_cases h4 : c = '('
            · rw [if_pos h4] at h; exact ih _ _ _ _ _ _ _ _ h hacc
            · rw [if_neg h4] at h
              by_cases h5 : c = lbrace
              · rw [if_pos h5] at h; exact ih _ _ _ _ _ _ _ _ h hacc
              · rw [if_neg h5] at h
                by_cases h6 : c = ','
                · rw [if_pos h6] at h
                  cases hda : pydiv 60 bpm with
                  | error e => rw [hda] at h; simp [Bind.bind, Except.bind] at h
                  | ok a =>
                    rw [hda] at h
                    simp only [Bind.bind, Except.bind] at h
                    cases hdb : pydiv 4 (beats : ℚ) with
                    | error e => rw [hdb] at h; simp at h
                    | ok b =>
                      rw [hdb] at h
                      dsimp only at h
                      exact ih _ _ _ _ _ _ _ _ h hacc
                · rw [if_neg h6] at h
                  by_cases h7 : c = 'E' ∧ (rest = [] ∨ rest.head? = some '\n')
                  · rw [if_pos h7] at h; exact ih _ _ _ _ _ _ _ _ h hacc
                  · rw [if_neg h7] at h
                    by_cases h8 : is_note_start c = true
                    · rw [if_pos h8] at h
                      cases hpg : parse_note_group (c :: rest) bpm with
                      | error e => rw [hpg] at h; simp [Bind.bind, Except.bind] at h
                      | ok pr =>
                        rw [hpg] at h
                        simp only [Bind.bind, Except.bind] at h
                        by_cases hpr : pr.1 = []
                        · rw [if_pos hpr] at h
                          exact ih _ _ _ _ _ _ _ _ h hacc
                        · rw [if_neg hpr] at h
                          refine ih _ _ _ _ _ _ _ _ h ?_
                          intro tp htp
                          rcases List.mem_append.mp htp with hm | hm
                          · exact hacc tp hm
                          · rw [List.mem_singleton] at hm
                            subst hm
                            exact hpr
                    · rw [if_neg h8] at h; exact ih _ _ _ _ _ _ _ _ h hacc

/-- Claim C10: every TimingPoint in a successfully parsed difficulty
track has a nonempty note list — a note-group resolving to zero notes
produces no TimingPoint at all. -/
theorem c10_no_empty_timing_points (cs : List Char) (fbt : ℚ) (l : List TimingPoint)
    (h : parse_simai cs fbt = .ok l) : ∀ tp ∈ l, tp.notes ≠ [] :=
  parse_simai_loop_nonempty (cs.length + 1) cs 120 4 fbt 0 0 [] l h (by simp)

/-- The single TimingPoint parsed from `2,` at offset 0. -/
def c10point : TimingPoint :=
  { time := 0, bpm := 120,
    notes := [{ note_type := "tap", position := 2, note_content := toL "2" }] }

unseal Rat.mul Rat.add Rat.sub Rat.inv in
/-- Witness for C10 at the concrete input `2,`. -/
theorem c10_witness_concrete : c10point.notes ≠ [] :=
  c10_no_empty_timing_points (toL "2,") 0 [c10point] (by decide) c10point (by simp)

/-- Loop invariant for C9: with every parsed tempo directive positive and
every parsed division directive positive, the elapsed time never
decreases, so appended TimingPoints keep the list sorted by time. -/
lemma parse_simai_loop_sorted :
    ∀ (fuel : Nat) (cs : List Char) (bpm : ℚ) (beats : Int) (time : ℚ) (y x : Nat)
      (acc l : List TimingPoint),
      parse_simai_loop fuel cs bpm beats time y x acc = .ok l →
      0 < bpm → 0 < beats →
      parensB cs = true → bracesB cs = true →
      List.Pairwise (fun a b => a.time ≤ b.time) acc →
      (∀ tp ∈ acc, tp.time ≤ time) →
      List.Pairwise (fun a b => a.time ≤ b.time) l := by
  intro fuel
  induction fuel with
  | zero =>
    intro cs bpm beats time y x acc l h hbpm hbeats hp hb hsort hle
    simp [parse_simai_loop, throw, throwThe, MonadExceptOf.throw] at h
  | succ fuel ih =>
    intro cs bpm beats time y x acc l h hbpm hbeats hp hb hsort hle
    cases cs with
    | nil =>
      rw [parse_simai_loop] at h
      simp only [pure, Except.pure, Except.ok.injEq] at h
      subst h
      exact hsort
    | cons c rest =>
      have hpr : parensB rest = true := parensB_tail c rest hp
      have hbr : bracesB rest = true := bracesB_tail c rest hb
      rw [parse_simai_loop] at h
      by_cases h1 : c = '\n'
      · rw [if_pos h1] at h
        exact ih _ _ _ _ _ _ _ _ h hbpm hbeats hpr hbr hsort hle
      · rw [if_neg h1] at h
        by_cases h2 : c = '|' ∧ rest.head? = some '|'
        · rw [if_pos h2] at h
          have hsf : dropUntil '\n' (c :: rest) <:+ c :: rest := List.dropWhile_suffix _
          exact ih _ _ _ _ _ _ _ _ h hbpm hbeats
            (parensB_suffix _ _ hsf hp) (bracesB_suffix _ _ hsf hb) hsort hle
        · rw [if_neg h2] at h
          by_cases h3 : c = ' ' ∨ c = '\t' ∨ c = '\r'
          · rw [if_pos h3] at h
            exact ih _ _ _ _ _ _ _ _ h hbpm hbeats hpr hbr hsort hle
          · rw [if_neg h3] at h
            by_cases h4 : c = '('
            · rw [if_pos h4] at h
              subst h4
              have hsf : (dropUntil ')' rest).drop 1 <:+ rest :=
                (List.drop_suffix 1 _).trans (List.dropWhile_suffix _)
              cases hpf : pyFloat (takeUntil ')' rest) with
              | none =>
                rw [hpf, Option.getD_none] at h
                exact ih _ _ _ _ _ _ _ _ h hbpm hbeats
                  (parensB_suffix _ _ hsf hpr) (bracesB_suffix _ _ hsf hbr) hsort hle
              | some v =>
                rw [hpf, Option.getD_some] at h
                exact ih _ _ _ _ _ _ _ _ h (parensB_head rest v hp hpf) hbeats
                  (parensB_suffix _ _ hsf hpr) (bracesB_suffix _ _ hsf hbr) hsort hle
            · rw [if_neg h4] at h
              by_cases h5 : c = lbrace
              · rw [if_pos h5] at h
                subst h5
                have hsf : (dropUntil rbrace rest).drop 1 <:+ rest :=
                  (List.drop_suffix 1 _).trans (List.dropWhile_suffix _)
                cases hpf : pyInt (takeUntil rbrace rest) with
                | none =>
                  rw [hpf, Option.getD_none] at h
                  exact ih _ _ _ _ _ _ _ _ h hbpm hbeats
                    (parensB_suffix _ _ hsf hpr) (bracesB_suffix _ _ hsf hbr) hsort hle
                | some v =>
                  rw [hpf, Option.getD_some] at h
                  exact ih _ _ _ _ _ _ _ _ h hbpm (bracesB_head rest v hb hpf)
                    (parensB_suffix _ _ hsf hpr) (bracesB_suffix _ _ hsf hbr) hsort hle
              · rw [if_neg h5] at h
                by_cases h6 : c = ','
                · rw [if_pos h6] at h
                  have hbQ : (0 : ℚ) < (beats : ℚ) := by exact_mod_cast hbeats
                  have hda : pydiv 60 bpm = .ok (60 / bpm) := by
                    simp [pydiv, ne_of_gt hbpm]
                  have hdb : pydiv 4 (beats : ℚ) = .ok (4 / (beats : ℚ)) := by
                    simp [pydiv, ne_of_gt hbQ]
                  rw [hda] at h
                  simp only [Bind.bind, Except.bind] at h
                  rw [hdb] at h
                  dsimp only at h
                  have hpos : 0 < 60 / bpm * (4 / (beats : ℚ)) :=
                    mul_pos (div_pos (by norm_num) hbpm) (div_pos (by norm_num) hbQ)
                  refine ih _ _ _ _ _ _ _ _ h hbpm hbeats hpr hbr hsort ?_
                  intro tp htp
                  exact (hle tp htp).trans (le_add_of_nonneg_right hpos.le)
                · rw [if_neg h6] at h
                  by_cases h7 : c = 'E' ∧ (rest = [] ∨ rest.head? = some '\n')
                  · rw [if_pos h7] at h
                    exact ih _ _ _ _ _ _ _ _ h hbpm hbeats hpr hbr hsort hle
                  · rw [if_neg h7] at h
                    by_cases h8 : is_note_start c = true
                    · rw [if_pos h8] at h
                      cases hpg : parse_note_group (c :: rest) bpm with
                      | error e => rw [hpg] at h; simp [Bind.bind, Except.bind] at h
                      | ok pr =>
                        rw [hpg] at h
                        simp only [Bind.bind, Except.bind] at h
                        have hsf : pr.2 <:+ c :: rest :=
                          parse_note_group_suffix (c :: rest) bpm pr.1 pr.2 hpg
                        by_cases hprn : pr.1 = []
                        · rw [if_pos hprn] at h
                          exact ih _ _ _ _ _ _ _ _ h hbpm hbeats
                            (parensB_suffix _ _ hsf hp) (bracesB_suffix _ _ hsf hb)
                            hsort hle
                        · rw [if_neg hprn] at h
                          refine ih _ _ _ _ _ _ _ _ h hbpm hbeats
                            (parensB_suffix _ _ hsf hp) (bracesB_suffix _ _ hsf hb) ?_ ?_
                          · refine List.pairwise_append.mpr
                              ⟨hsort, List.pairwise_singleton _ _, ?_⟩
                            intro a ha b hbm
                            rw [List.mem_singleton] at hbm
                            subst hbm
                            exact hle a ha
                          · intro tp htp
                            rcases List.mem_append.mp htp with hm | hm
                            · exact hle tp hm
                            · rw [List.mem_singleton] at hm
                              subst hm
                              exact le_refl _
                    · rw [if_neg h8] at h
                      exact ih _ _ _ _ _ _ _ _ h hbpm hbeats hpr hbr hsort hle

/-- Claim C9: if every tempo directive body that parses is a positive
number and every division directive body that parses is a positive
integer, then the returned TimingPoint list is ordered non-decreasing in
its time field. -/
theorem c9_sorted_times (cs : List Char) (fbt : ℚ) (l : List TimingPoint)
    (hp : parensB cs = true) (hb : bracesB cs = true)
    (h : parse_simai cs fbt = .ok l) :
    List.Pairwise (fun a b => a.time ≤ b.time) l :=
  parse_simai_loop_sorted (cs.length + 1) cs 120 4 fbt 0 0 [] l h
    (by norm_num) (by norm_num) hp hb (by simp) (by simp)

/-- The two TimingPoints parsed from `1,2,` at offset 0. -/
def c9list : List TimingPoint :=
  [{ time := 0, bpm := 120,
     notes := [{ note_type := "tap", position := 1, note_content := toL "1" }] },
   { time := 1/2, bpm := 120,
     notes := [{ note_type := "tap", position := 2, note_content := toL "2" }],
     raw_text_position_x := 2 }]

unseal Rat.mul Rat.add Rat.sub Rat.inv in
/-- Witness for C9 at the concrete input `1,2,`. -/
theorem c9_witness_concrete :
    List.Pairwise (fun a b => a.time ≤ b.time) c9list :=
  c9_sorted_times (toL "1,2,") 0 c9list (by decide) (by decide) (by decide)
